import Mathlib

/-
Verification of a WebSocket-to-TCP tunneling relay (index.js).

The development shallowly embeds the program: byte strings and JS strings are
modelled as `List Char` (the code only ever decodes, compares prefixes and
slices, so UTF-8 decoding is the identity on the payloads considered), JS
string primitives (`substring`, `indexOf`, `lastIndexOf`, `parseInt`) are
transcribed with their clamping semantics, the per-session state machine is an
explicit step function over a `Session` record emitting a trace of observable
effects, the dial loop `connectToRemote` is a recursion over the candidate
list driven by an environment giving each attempt's outcome, and the DoH
resolver `resolveDoH` is a function over an explicit cache, clock and
environment of backend responses.
-/

namespace WsProxy

/-! ## JS string primitives, on `List Char` -/

/-- Index of the first occurrence of `c`, counting from `i`. -/
def idxAux (c : Char) : List Char → Nat → Option Nat
  | [], _ => none
  | x :: xs, i => if x = c then some i else idxAux c xs (i + 1)

/-- JS `s.indexOf(c, start)`: `-1` when absent. -/
def jsIndexOfFromL (l : List Char) (c : Char) (start : Nat) : Int :=
  match idxAux c (l.drop start) start with
  | some i => (i : Int)
  | none => -1

/-- JS `s.lastIndexOf(c)`: `-1` when absent. -/
def jsLastIndexOfL (l : List Char) (c : Char) : Int :=
  match idxAux c l.reverse 0 with
  | some i => ((l.length - 1 - i : Nat) : Int)
  | none => -1

/-- JS `s.substring(a, b)`: clamps both arguments into `[0, length]` and swaps
them when out of order. -/
def jsSubL (l : List Char) (a b : Int) : List Char :=
  let n : Int := (l.length : Int)
  let ca := (min (max a 0) n).toNat
  let cb := (min (max b 0) n).toNat
  (l.take (max ca cb)).drop (min ca cb)

/-- JS `s.substring(a)`. -/
def jsSubFromL (l : List Char) (a : Int) : List Char :=
  jsSubL l a (l.length : Int)

/-- Value of the leading digit run, `none` when there is none. -/
def digitsVal (l : List Char) : Option Nat :=
  let d := l.takeWhile Char.isDigit
  if d.isEmpty then none
  else some (d.foldl (fun a ch => a * 10 + (ch.toNat - '0'.toNat)) 0)

/-- JS `parseInt(s, 10)`: skips leading whitespace, accepts an optional sign,
reads the leading digit run, `none` for NaN. -/
def jsParseIntL (l : List Char) : Option Int :=
  let t := l.dropWhile fun ch => ch == ' ' || ch == '\t' || ch == '\n' || ch == '\r'
  match t with
  | '-' :: r => (digitsVal r).map fun n => -(n : Int)
  | '+' :: r => (digitsVal r).map fun n => (n : Int)
  | _ => (digitsVal t).map fun n => (n : Int)

/-- whether `pat` is a prefix of `s` (JS `s.startsWith(pat)`). -/
def hasPre : List Char → List Char → Bool
  | [], _ => true
  | _ :: _, [] => false
  | a :: ps, b :: ss => a == b && hasPre ps ss

/-- whether `pat` occurs as a contiguous run inside `s` (JS `s.includes(pat)`). -/
def hasSub (pat : List Char) : List Char → Bool
  | [] => pat.isEmpty
  | b :: ss => hasPre pat (b :: ss) || hasSub pat ss

/-! ## `parseAddress` and `isCFError` (index.js lines 85-106) -/

/-- the function `parseAddress(addr)`: bracketed-host form for addresses beginning with
`[`, otherwise split at the last colon; the port goes through `parseInt`. -/
def parseAddressL (addr : List Char) : List Char × Option Int :=
  if addr.head? = some '[' then
    let e := jsIndexOfFromL addr ']' 0
    (jsSubL addr 1 e, jsParseIntL (jsSubFromL addr (e + 2)))
  else
    let sep := jsLastIndexOfL addr ':'
    (jsSubL addr 0 sep, jsParseIntL (jsSubFromL addr (sep + 1)))

/-- the classifier `isCFError(err)`: the lowercased message contains one of the four
retryable markers. -/
def isCFError (msg : List Char) : Bool :=
  let m := msg.map Char.toLower
  hasSub ("proxy request".toList) m || hasSub ("cannot connect".toList) m ||
  hasSub ("econnrefused".toList) m || hasSub ("etimedout".toList) m

example : parseAddressL ("example.com:443".toList) = ("example.com".toList, some 443) := by decide
example : parseAddressL ("[::1]:8443".toList) = ("::1".toList, some 8443) := by decide
example : isCFError ("connect ECONNREFUSED 1.2.3.4:80".toList) = true := by decide
example : isCFError ("boom".toList) = false := by decide

/-! ## Session state and observable effects (handleSession, lines 46-184)

Sockets are identified by the order in which `net.connect` created them
(`nextSid` is the allocation counter); `destroyed` records the ids on which
`destroy()` has been invoked (each such socket is also removed from
`remoteSocket` at the same program point, exactly as the source nulls the
variable after destroying). -/

/-- One observable action of the session. -/
inductive Eff where
  /-- a `net.connect` call: candidate host, requested port, fresh socket id -/
  | connAttempt (host : List Char) (port : Option Int) (sid : Nat)
  /-- a write on the TCP socket: `remoteSocket.write(bytes)` -/
  | sockWrite (sid : Nat) (bytes : List Char)
  /-- a call of the TCP socket release routine `remoteSocket.destroy()` -/
  | sockDestroy (sid : Nat)
  /-- a send on the client stream, `webSocket.send(payload)` (text command or raw bytes alike) -/
  | wsSend (payload : List Char)
  /-- a call of `safeCloseWebSocket(webSocket)` -/
  | wsClose
  deriving Repr, DecidableEq

/-- The mutable state of one `handleSession` invocation. -/
structure Session where
  isClosed : Bool
  remoteSocket : Option Nat
  destroyed : List Nat
  nextSid : Nat
  deriving Repr, DecidableEq

def initSession : Session := ⟨false, none, [], 0⟩

/-- the function `cleanup` (lines 50-60): guarded by the `closed` flag; destroys the
current socket if any, then closes the client stream. -/
def cleanup (s : Session) : Session × List Eff :=
  if s.isClosed then (s, [])
  else
    match s.remoteSocket with
    | some sid => (⟨true, none, sid :: s.destroyed, s.nextSid⟩, [Eff.sockDestroy sid, Eff.wsClose])
    | none => (⟨true, none, s.destroyed, s.nextSid⟩, [Eff.wsClose])

/-- The write guard of the `DATA:` and raw-binary branches:
`remoteSocket && !remoteSocket.destroyed`. -/
def writeToSock (s : Session) (bytes : List Char) : List Eff :=
  match s.remoteSocket with
  | some sid => if s.destroyed.contains sid then [] else [Eff.sockWrite sid bytes]
  | none => []

/-! ## The dial loop `connectToRemote` (lines 108-149)

The network is abstracted by `env : Nat → DialOutcome`, giving the result of
the i-th `net.connect` of this dial (`ok`, or `fail` with the error message
the promise rejects with). -/

inductive DialOutcome where
  | ok
  | fail (msg : List Char)

/-- JS `attempts[i] || host`: `null` and the empty string are falsy. -/
def jsOr (cand : Option (List Char)) (host : List Char) : List Char :=
  match cand with
  | none => host
  | some x => if x.isEmpty then host else x

def connectedMsg : List Char := "CONNECTED".toList
def closeMsg : List Char := "CLOSE".toList
def errMark : List Char := "ERROR:".toList

/-- The `for` loop of `connectToRemote`: one iteration per candidate; on
success write the first payload (if non-empty, JS truthiness) and send
`CONNECTED`; on failure destroy the socket and either rethrow (non-retryable
error, or last candidate) or continue. -/
def dialGo (host : List Char) (port : Option Int) (ff : List Char) (env : Nat → DialOutcome) :
    List (Option (List Char)) → Nat → Session → Session × List Eff × Except (List Char) Unit
  | [], _, s => (s, [], Except.ok ())
  | cand :: rest, i, s =>
    let th := jsOr cand host
    let sid := s.nextSid
    match env i with
    | DialOutcome.ok =>
        (⟨s.isClosed, some sid, s.destroyed, sid + 1⟩,
         Eff.connAttempt th port sid ::
           ((if ff.isEmpty then [] else [Eff.sockWrite sid ff]) ++ [Eff.wsSend connectedMsg]),
         Except.ok ())
    | DialOutcome.fail m =>
        let s2 : Session := ⟨s.isClosed, none, sid :: s.destroyed, sid + 1⟩
        if !isCFError m || rest.isEmpty then
          (s2, [Eff.connAttempt th port sid, Eff.sockDestroy sid], Except.error m)
        else
          let out := dialGo host port ff env rest (i + 1) s2
          (out.1, Eff.connAttempt th port sid :: Eff.sockDestroy sid :: out.2.1, out.2.2)

/-- the function `connectToRemote` entered at a parsed host/port: the attempt plan is
`[null, ...CF_FALLBACK_IPS]`. -/
def dialFrom (host : List Char) (port : Option Int) (ff : List Char)
    (fbs : List (List Char)) (env : Nat → DialOutcome) (s : Session) :
    Session × List Eff × Except (List Char) Unit :=
  dialGo host port ff env (none :: fbs.map some) 0 s

/-- the full `connectToRemote(targetAddr, firstFrameData)` (lines 108-149). -/
def connectToRemote (targetAddr ff : List Char) (fbs : List (List Char))
    (env : Nat → DialOutcome) (s : Session) :
    Session × List Eff × Except (List Char) Unit :=
  dialFrom (parseAddressL targetAddr).1 (parseAddressL targetAddr).2 ff fbs env s

/-! ## The message handler and the event step (lines 151-183) -/

/-- An inbound client frame: a text frame, or a binary (`Buffer`) frame.  The
payload is the frame's byte content; `toString()` is the identity in this
byte-string model. -/
inductive Frame where
  | text (s : List Char)
  | bin (s : List Char)
  deriving Repr, DecidableEq

def Frame.toMsg : Frame → List Char
  | .text s => s
  | .bin s => s

def Frame.isBuf : Frame → Bool
  | .text _ => false
  | .bin _ => true

def connectPat : List Char := "CONNECT:".toList
def dataPat : List Char := "DATA:".toList

/-- The `CONNECT:` branch: parse `addr|firstFrame`, run the dial; a thrown
error is caught by the handler, reported as `ERROR:<message>` and followed by
`cleanup()`. -/
def handleConnect (s : Session) (m : List Char) (fbs : List (List Char))
    (env : Nat → DialOutcome) : Session × List Eff :=
  let sep := jsIndexOfFromL m '|' 8
  let out := connectToRemote (jsSubL m 8 sep) (jsSubFromL m (sep + 1)) fbs env s
  match out.2.2 with
  | Except.ok _ => (out.1, out.2.1)
  | Except.error em =>
      let c := cleanup out.1
      (c.1, out.2.1 ++ (Eff.wsSend (errMark ++ em) :: c.2))

/-- The `webSocket.on('message')` handler (lines 151-180). -/
def onMessage (s : Session) (f : Frame) (fbs : List (List Char))
    (env : Nat → DialOutcome) : Session × List Eff :=
  if s.isClosed then (s, [])
  else
    let m := f.toMsg
    if hasPre connectPat m then handleConnect s m fbs env
    else if hasPre dataPat m then (s, writeToSock s (jsSubFromL m 5))
    else if m = closeMsg then cleanup s
    else if f.isBuf then (s, writeToSock s m)
    else (s, [])

/-- The events a session reacts to.  `sockData` carries the environment facts
its handler branches on: whether `webSocket.readyState` is OPEN and whether
`webSocket.send` throws. -/
inductive SEvent where
  | wsMessage (f : Frame) (env : Nat → DialOutcome)
  | wsClosed
  | wsErrored
  | sockData (sid : Nat) (bytes : List Char) (wsIsOpen : Bool) (sendOk : Bool)
  | sockEnd (sid : Nat)
  | sockError (sid : Nat)

/-- Dispatch of one event to the handlers registered by `handleSession` and
`pumpRemoteToWebSocket`. -/
def step (fbs : List (List Char)) (s : Session) : SEvent → Session × List Eff
  | SEvent.wsMessage f env => onMessage s f fbs env
  | SEvent.wsClosed => cleanup s
  | SEvent.wsErrored => cleanup s
  | SEvent.sockData _ bytes wsIsOpen sendOk =>
      if s.isClosed then (s, [])
      else if wsIsOpen then
        if sendOk then (s, [Eff.wsSend bytes]) else cleanup s
      else (s, [])
  | SEvent.sockEnd _ =>
      if s.isClosed then (s, [])
      else ((cleanup s).1, Eff.wsSend closeMsg :: (cleanup s).2)
  | SEvent.sockError _ => cleanup s

/-- A whole session run: fold the events, concatenating the effect traces. -/
def runSession (fbs : List (List Char)) (s : Session) : List SEvent → Session × List Eff
  | [] => (s, [])
  | e :: es =>
    let o1 := step fbs s e
    let o2 := runSession fbs o1.1 es
    (o2.1, o1.2 ++ o2.2)

/-! ## Trace projections -/

def destroysOf (effs : List Eff) : List Nat :=
  effs.filterMap fun e => match e with | Eff.sockDestroy sid => some sid | _ => none

def attemptHostsOf (effs : List Eff) : List (List Char) :=
  effs.filterMap fun e => match e with | Eff.connAttempt h _ _ => some h | _ => none

def attemptPortsOf (effs : List Eff) : List (Option Int) :=
  effs.filterMap fun e => match e with | Eff.connAttempt _ p _ => some p | _ => none

def attemptSidsOf (effs : List Eff) : List Nat :=
  effs.filterMap fun e => match e with | Eff.connAttempt _ _ sid => some sid | _ => none

example :
    runSession [] initSession
      [SEvent.wsMessage (Frame.text ("CONNECT:h:1|x".toList)) (fun _ => DialOutcome.ok)] =
    (⟨false, some 0, [], 1⟩,
     [Eff.connAttempt ("h".toList) (some 1) 0, Eff.sockWrite 0 ("x".toList),
      Eff.wsSend connectedMsg]) := by decide

/-! ## The resolver-aware dial loop (second source variant, lines 414-467)

The second variant of `connectToRemote` resolves each non-IP candidate via
`resolveDoH` before `net.connect`, absorbing any resolution failure and then
dialing the original candidate string.  `isIP` abstracts `net.isIP`,
`resolveOk i th` the outcome of the `resolveDoH` call made at attempt `i`
(`none` models the resolver throwing), `conn i` the i-th `net.connect`. -/

structure Dial2Env where
  isIP : List Char → Bool
  resolveOk : Nat → List Char → Option (List Char)
  conn : Nat → DialOutcome

/-- The host actually passed to `net.connect` at attempt `i` for candidate
`th` (lines 422-432): `targetHost` when it is a literal IP or when resolution
fails, otherwise the resolved address. -/
def resolvedHostOf (env : Dial2Env) (i : Nat) (th : List Char) : List Char :=
  if env.isIP th then th
  else
    match env.resolveOk i th with
    | some ip => ip
    | none => th

/-- One attempt of the resolver-aware loop: the candidate string and the host
actually dialed. -/
structure Att2 where
  target : List Char
  dialed : List Char
  deriving Repr, DecidableEq

/-- The loop of the resolver-aware `connectToRemote`, returning the attempt
trace and the overall outcome. -/
def dial2Go (host : List Char) (env : Dial2Env) :
    List (Option (List Char)) → Nat → List Att2 × Except (List Char) Unit
  | [], _ => ([], Except.ok ())
  | cand :: rest, i =>
    let th := jsOr cand host
    let a : Att2 := ⟨th, resolvedHostOf env i th⟩
    match env.conn i with
    | DialOutcome.ok => ([a], Except.ok ())
    | DialOutcome.fail m =>
        if !isCFError m || rest.isEmpty then ([a], Except.error m)
        else
          let out := dial2Go host env rest (i + 1)
          (a :: out.1, out.2)

/-- The resolver-aware `connectToRemote` at a parsed host, with the attempt
plan `[null, ...CF_FALLBACK_IPS]`. -/
def connectToRemote2 (host : List Char) (fbs : List (List Char)) (env : Dial2Env) :
    List Att2 × Except (List Char) Unit :=
  dial2Go host env (none :: fbs.map some) 0

/-! ## The DoH resolver `resolveDoH` (second variant, lines 222-266)

The cache is an association list, most recent entry first (`Map.set` followed
by `Map.get` reads the newest binding, which first-match lookup preserves).
`dohList` gives, per configured DoH server in order, the A-record address it
returns, or `none` for any failure; `sysResult` is the system resolver's
answer.  `lookups` counts outbound calls: DoH HTTPS queries plus system-DNS
lookups. -/

def DNS_CACHE_TTL : Nat := 300000

abbrev Cache := List (List Char × List Char × Nat)

def cacheGet : Cache → List Char → Option (List Char × Nat)
  | [], _ => none
  | (k, ip, ts) :: rest, h => if k = h then some (ip, ts) else cacheGet rest h

def cacheSet (c : Cache) (h ip : List Char) (ts : Nat) : Cache :=
  (h, ip, ts) :: c

structure DnsEnv where
  isIP : List Char → Bool
  dohList : List (Option (List Char))
  sysResult : Option (List Char)

/-- Number of DoH servers queried until the first success, with that
success. -/
def firstSome : List (Option (List Char)) → Nat × Option (List Char)
  | [] => (0, none)
  | o :: rest =>
    match o with
    | some ip => (1, some ip)
    | none =>
        let out := firstSome rest
        (out.1 + 1, out.2)

structure ResolveOut where
  /-- the result; `none` models `resolveDoH` throwing its final resolution error -/
  result : Option (List Char)
  cache : Cache
  lookups : Nat
  deriving Repr, DecidableEq

/-- the body of `resolveDoH` after the cache check (lines 230-265): literal-IP bypass,
then the DoH servers in order, then the system resolver, caching any
success. -/
def resolveFresh (env : DnsEnv) (c : Cache) (now : Nat) (h : List Char) : ResolveOut :=
  if env.isIP h then ⟨some h, c, 0⟩
  else
    match firstSome env.dohList with
    | (q, some ip) => ⟨some ip, cacheSet c h ip now, q⟩
    | (q, none) =>
        match env.sysResult with
        | some ip => ⟨some ip, cacheSet c h ip now, q + 1⟩
        | none => ⟨none, c, q + 1⟩

/-- the full `resolveDoH(hostname)` (lines 222-266): a cache entry younger than
`DNS_CACHE_TTL` is returned without any lookup; otherwise the entry is
bypassed and resolution proceeds afresh. -/
def resolveDoH (env : DnsEnv) (c : Cache) (now : Nat) (h : List Char) : ResolveOut :=
  match cacheGet c h with
  | some (ip, ts) =>
      if now - ts < DNS_CACHE_TTL then ⟨some ip, c, 0⟩
      else resolveFresh env c now h
  | none => resolveFresh env c now h

/-- The cache states the program can actually produce: empty at startup, and
closed under full `resolveDoH` calls (with `net.isIP` fixed across calls,
while the backend answers and the clock may vary per call). -/
inductive ReachableCache (ipTest : List Char → Bool) : Cache → Prop
  | nil : ReachableCache ipTest []
  | upd (env : DnsEnv) (now : Nat) (h : List Char) (c : Cache) :
      env.isIP = ipTest → ReachableCache ipTest c →
      ReachableCache ipTest (resolveDoH env c now h).cache

/-! ## Helper lemmas -/

theorem destroysOf_nil : destroysOf [] = [] := rfl

theorem destroysOf_append (a b : List Eff) :
    destroysOf (a ++ b) = destroysOf a ++ destroysOf b :=
  List.filterMap_append a b _

theorem attemptHostsOf_append (a b : List Eff) :
    attemptHostsOf (a ++ b) = attemptHostsOf a ++ attemptHostsOf b :=
  List.filterMap_append a b _

theorem attemptSidsOf_append (a b : List Eff) :
    attemptSidsOf (a ++ b) = attemptSidsOf a ++ attemptSidsOf b :=
  List.filterMap_append a b _

theorem idxAux_append_of_not_mem {c : Char} {l : List Char} (hl : c ∉ l) (r : List Char)
    (i : Nat) : idxAux c (l ++ c :: r) i = some (i + l.length) := by
  induction l generalizing i with
  | nil => simp [idxAux]
  | cons x xs ih =>
      have hx : ¬(x = c) := fun h => hl (h ▸ List.mem_cons_self x xs)
      have hxs : c ∉ xs := fun h => hl (List.mem_cons_of_mem x h)
      simp only [List.cons_append, idxAux, if_neg hx, List.append_eq, ih hxs, List.length_cons]
      exact congrArg some (by omega)

theorem jsSubL_of_nat {l : List Char} {a b : Nat} (hb : b ≤ l.length) (hab : a ≤ b) :
    jsSubL l (a : Int) (b : Int) = (l.take b).drop a := by
  have h1 : ((min (max (a : Int) 0) (l.length : Int)).toNat) = a := by
    rw [max_eq_left (Int.natCast_nonneg a),
      min_eq_left (by exact_mod_cast le_trans hab hb), Int.toNat_natCast]
  have h2 : ((min (max (b : Int) 0) (l.length : Int)).toNat) = b := by
    rw [max_eq_left (Int.natCast_nonneg b), min_eq_left (by exact_mod_cast hb),
      Int.toNat_natCast]
  simp only [jsSubL, h1, h2, Nat.max_eq_right hab, Nat.min_eq_left hab]

theorem jsSubFromL_of_nat {l : List Char} {a : Nat} (ha : a ≤ l.length) :
    jsSubFromL l (a : Int) = l.drop a := by
  unfold jsSubFromL
  rw [show ((l.length : Int)) = ((l.length : Nat) : Int) from rfl,
    jsSubL_of_nat (Nat.le_refl _) ha, List.take_length]

/-! ## Claim C10: address parsing -/

theorem parseAddressL_bracket (h p : List Char) (hh : ']' ∉ h) :
    parseAddressL ('[' :: h ++ ']' :: ':' :: p) = (h, jsParseIntL p) := by
  have hnm : ']' ∉ '[' :: h := by
    intro hm
    rcases List.mem_cons.mp hm with h1 | h1
    · exact absurd h1.symm (by decide)
    · exact hh h1
  have hsplit : '[' :: h ++ ']' :: ':' :: p = ('[' :: h) ++ ']' :: (':' :: p) := by simp
  have hidx : jsIndexOfFromL ('[' :: h ++ ']' :: ':' :: p) ']' 0 = ((h.length + 1 : Nat) : Int) := by
    unfold jsIndexOfFromL
    rw [List.drop_zero, hsplit, idxAux_append_of_not_mem hnm (':' :: p) 0]
    simp
  have hhost : jsSubL ('[' :: h ++ ']' :: ':' :: p) 1 ((h.length + 1 : Nat) : Int) = h := by
    rw [show (1 : Int) = ((1 : Nat) : Int) from rfl,
      jsSubL_of_nat (by simp) (by omega)]
    have ht : ('[' :: h ++ ']' :: ':' :: p).take (h.length + 1) = '[' :: h := by
      rw [hsplit, show h.length + 1 = ('[' :: h).length from by simp, List.take_left]
    rw [ht, List.drop_one, List.tail_cons]
  have hport : jsSubFromL ('[' :: h ++ ']' :: ':' :: p) (((h.length + 1 : Nat) : Int) + 2) = p := by
    rw [show (((h.length + 1 : Nat) : Int) + 2) = ((h.length + 3 : Nat) : Int) from by omega,
      jsSubFromL_of_nat (by simp)]
    rw [show ('[' :: h ++ ']' :: ':' :: p) = ('[' :: h ++ [']', ':']) ++ p from by simp,
      show h.length + 3 = ('[' :: h ++ [']', ':']).length from by simp, List.drop_left]
  unfold parseAddressL
  rw [if_pos (by simp)]
  simp only [hidx, hhost, hport]

theorem parseAddressL_colon (h p : List Char) (hp : ':' ∉ p)
    (hh : (h ++ ':' :: p).head? ≠ some '[') :
    parseAddressL (h ++ ':' :: p) = (h, jsParseIntL p) := by
  have hrev : (h ++ ':' :: p).reverse = p.reverse ++ ':' :: h.reverse := by
    simp
  have hpn : ':' ∉ p.reverse := by simp [hp]
  have hlast : jsLastIndexOfL (h ++ ':' :: p) ':' = ((h.length : Nat) : Int) := by
    unfold jsLastIndexOfL
    rw [hrev, idxAux_append_of_not_mem hpn _ 0]
    simp
  have hhost : jsSubL (h ++ ':' :: p) 0 ((h.length : Nat) : Int) = h := by
    rw [show (0 : Int) = ((0 : Nat) : Int) from rfl,
      jsSubL_of_nat (by simp) (Nat.zero_le _)]
    rw [List.take_left, List.drop_zero]
  have hport : jsSubFromL (h ++ ':' :: p) (((h.length : Nat) : Int) + 1) = p := by
    rw [show (((h.length : Nat) : Int) + 1) = ((h.length + 1 : Nat) : Int) from by omega,
      jsSubFromL_of_nat (by simp)]
    rw [show h ++ ':' :: p = (h ++ [':']) ++ p from by simp,
      show h.length + 1 = (h ++ [':']).length from by simp, List.drop_left]
  unfold parseAddressL
  rw [if_neg hh]
  simp only [hlast, hhost, hport]

/-- Claim C10: `parseAddress` maps `example.com:443` to host `example.com`
and port 443, and `[::1]:8443` to host `::1` and port 8443; in general a
bracketed address yields the substring between the brackets as host with the
port parsed after the closing bracket and colon, and otherwise the host is
everything before the last colon with the port parsed from everything after
it. -/
theorem claim10_parse_address :
    parseAddressL ("example.com:443".toList) = ("example.com".toList, some 443) ∧
    parseAddressL ("[::1]:8443".toList) = ("::1".toList, some 8443) ∧
    (∀ h p : List Char, ']' ∉ h →
      parseAddressL ('[' :: h ++ ']' :: ':' :: p) = (h, jsParseIntL p)) ∧
    (∀ h p : List Char, ':' ∉ p → (h ++ ':' :: p).head? ≠ some '[' →
      parseAddressL (h ++ ':' :: p) = (h, jsParseIntL p)) :=
  ⟨by decide, by decide, parseAddressL_bracket, parseAddressL_colon⟩

/-- Witness for claim C10 at concrete inputs discharging all hypotheses. -/
theorem claim10_parse_address_witness :
    parseAddressL ('[' :: (":fe80".toList) ++ ']' :: ':' :: ("17".toList)) =
      (":fe80".toList, jsParseIntL ("17".toList)) ∧
    parseAddressL (("api.example".toList) ++ ':' :: ("80".toList)) =
      ("api.example".toList, jsParseIntL ("80".toList)) :=
  ⟨claim10_parse_address.2.2.1 (":fe80".toList) ("17".toList) (by decide),
   claim10_parse_address.2.2.2 ("api.example".toList) ("80".toList) (by decide) (by decide)⟩

/-! ## Claim C5: resolver cache TTL -/

theorem firstSome_fst_pos {l : List (Option (List Char))} (hl : l ≠ []) :
    1 ≤ (firstSome l).1 := by
  cases l with
  | nil => exact absurd rfl hl
  | cons o rest =>
      cases o with
      | some ip => simp [firstSome]
      | none => simp [firstSome]

theorem resolveFresh_lookups_pos (env : DnsEnv) (c : Cache) (now : Nat) (h : List Char)
    (hip : env.isIP h = false) (hd : env.dohList ≠ []) :
    1 ≤ (resolveFresh env c now h).lookups := by
  have hq := firstSome_fst_pos hd
  unfold resolveFresh
  rw [if_neg (by simp [hip])]
  rcases hfs : firstSome env.dohList with ⟨q, oip⟩
  rw [hfs] at hq
  cases oip with
  | some ip => simpa using hq
  | none =>
      cases hsys : env.sysResult with
      | some ip => simp
      | none => simp

/-- Claim C5: a cached resolution of a non-IP hostname made at time T is
returned with no outbound lookup when queried at `T + TTL − ε` (ε > 0), while
at `T + TTL + ε` the entry is bypassed — the call behaves exactly as with the
entry absent (`resolveFresh`, the code below the cache check) and performs at
least one fresh external lookup. -/
theorem claim5_cache_ttl (env : DnsEnv) (c : Cache) (h ip : List Char) (T eps : Nat)
    (heps : 0 < eps) (hle : eps ≤ DNS_CACHE_TTL) (hip : env.isIP h = false)
    (hdoh : env.dohList.length = 3) (hc : cacheGet c h = some (ip, T)) :
    resolveDoH env c (T + DNS_CACHE_TTL - eps) h = ⟨some ip, c, 0⟩ ∧
    resolveDoH env c (T + DNS_CACHE_TTL + eps) h =
      resolveFresh env c (T + DNS_CACHE_TTL + eps) h ∧
    1 ≤ (resolveFresh env c (T + DNS_CACHE_TTL + eps) h).lookups := by
  refine ⟨?_, ?_, ?_⟩
  · unfold resolveDoH
    simp only [hc]
    rw [if_pos (by unfold DNS_CACHE_TTL at *; omega)]
  · unfold resolveDoH
    simp only [hc]
    rw [if_neg (by unfold DNS_CACHE_TTL at *; omega)]
  · exact resolveFresh_lookups_pos env c _ h hip (by intro hnil; rw [hnil] at hdoh; simp at hdoh)

/-- Witness for claim C5 at a concrete environment, cache and clock. -/
theorem claim5_cache_ttl_witness :
    resolveDoH ⟨fun _ => false, [none, none, some ("9.9.9.9".toList)], none⟩
      [(("a.example".toList), ("1.2.3.4".toList), 7)] (7 + DNS_CACHE_TTL - 1)
      ("a.example".toList) =
      ⟨some ("1.2.3.4".toList), [(("a.example".toList), ("1.2.3.4".toList), 7)], 0⟩ ∧
    1 ≤ (resolveFresh ⟨fun _ => false, [none, none, some ("9.9.9.9".toList)], none⟩
      [(("a.example".toList), ("1.2.3.4".toList), 7)] (7 + DNS_CACHE_TTL + 1)
      ("a.example".toList)).lookups := by
  have hw := claim5_cache_ttl ⟨fun _ => false, [none, none, some ("9.9.9.9".toList)], none⟩
    [(("a.example".toList), ("1.2.3.4".toList), 7)] ("a.example".toList) ("1.2.3.4".toList)
    7 1 (by decide) (by decide) rfl rfl (by decide)
  exact ⟨hw.1, hw.2.2⟩

/-! ## Claim C9: literal-IP bypass in every reachable cache state -/

theorem resolveFresh_keys (env : DnsEnv) (c : Cache) (now : Nat) (h : List Char)
    (ipTest : List Char → Bool) (henv : env.isIP = ipTest)
    (hc : ∀ e ∈ c, ipTest e.1 = false) :
    ∀ e ∈ (resolveFresh env c now h).cache, ipTest e.1 = false := by
  unfold resolveFresh
  by_cases hip : env.isIP h
  · rw [if_pos hip]
    exact hc
  · rw [if_neg hip]
    rcases hfs : firstSome env.dohList with ⟨q, oip⟩
    cases oip with
    | some ip =>
        intro e he
        simp only [cacheSet, List.mem_cons] at he
        rcases he with he | he
        · rw [he]
          rw [← henv]
          simpa using hip
        · exact hc e he
    | none =>
        cases hsys : env.sysResult with
        | some ip =>
            simp only [hsys]
            intro e he
            simp only [cacheSet, List.mem_cons] at he
            rcases he with he | he
            · rw [he]
              rw [← henv]
              simpa using hip
            · exact hc e he
        | none =>
            simp only [hsys]
            exact hc

theorem reachable_cache_keys {ipTest : List Char → Bool} {c : Cache}
    (hr : ReachableCache ipTest c) : ∀ e ∈ c, ipTest e.1 = false := by
  induction hr with
  | nil => intro e he; simp at he
  | upd env now h c henv _ ih =>
      unfold resolveDoH
      rcases hg : cacheGet c h with _ | ⟨ip, ts⟩
      · exact resolveFresh_keys env c now h ipTest henv ih
      · simp only [hg]
        by_cases ht : now - ts < DNS_CACHE_TTL
        · rw [if_pos ht]
          exact ih
        · rw [if_neg ht]
          exact resolveFresh_keys env c now h ipTest henv ih

theorem cacheGet_eq_none {c : Cache} {h : List Char} (hk : ∀ e ∈ c, e.1 ≠ h) :
    cacheGet c h = none := by
  induction c with
  | nil => rfl
  | cons e rest ih =>
      obtain ⟨k, ip, ts⟩ := e
      have hne : ¬(k = h) := hk ⟨k, ip, ts⟩ (List.mem_cons_self _ _)
      simp only [cacheGet, if_neg hne]
      exact ih fun e he => hk e (List.mem_cons_of_mem _ he)

/-- Claim C9: on a hostname that is a literal IP address, `resolveDoH`
returns it unchanged with zero outbound lookups (and an unchanged cache), in
every cache state the program can reach — reachable caches hold only non-IP
keys, so the cache check above the literal-IP test can never fire for an IP
argument. -/
theorem claim9_literal_ip_bypass (ipTest : List Char → Bool) (env : DnsEnv) (c : Cache)
    (h : List Char) (now : Nat) (henv : env.isIP = ipTest)
    (hreach : ReachableCache ipTest c) (hip : ipTest h = true) :
    resolveDoH env c now h = ⟨some h, c, 0⟩ := by
  have hkeys := reachable_cache_keys hreach
  have hnone : cacheGet c h = none := by
    refine cacheGet_eq_none fun e he heq => ?_
    have := hkeys e he
    rw [heq, hip] at this
    exact Bool.noConfusion this
  unfold resolveDoH
  rw [hnone]
  unfold resolveFresh
  rw [if_pos (by rw [henv, hip])]

/-- Witness for claim C9: the empty cache is reachable, and a dotted-quad
input is returned unchanged without lookups. -/
theorem claim9_literal_ip_bypass_witness :
    resolveDoH ⟨fun l => l = "203.0.113.5".toList, [none, none, none], none⟩ [] 42
      ("203.0.113.5".toList) = ⟨some ("203.0.113.5".toList), [], 0⟩ :=
  claim9_literal_ip_bypass (fun l => l = "203.0.113.5".toList)
    ⟨fun l => l = "203.0.113.5".toList, [none, none, none], none⟩ [] ("203.0.113.5".toList)
    42 rfl (ReachableCache.nil) (by simp)

/-! ## Claims C2 and C3: dial order and error classification -/

theorem plan_hosts (host : List Char) (fbs : List (List Char)) (hne : [] ∉ fbs) :
    (none :: fbs.map some).map (fun c => jsOr c host) = host :: fbs := by
  simp only [List.map_cons, List.map_map]
  refine congrArg₂ _ rfl ?_
  have hcg : ∀ x ∈ fbs, (jsOr ∘ some) x host = id x := by
    intro x hx
    have hxe : ¬(x.isEmpty = true) := by
      rw [List.isEmpty_iff]
      intro hx0
      exact hne (hx0 ▸ hx)
    show jsOr (some x) host = x
    simp only [jsOr]
    rw [if_neg hxe]
  calc fbs.map (fun x => (jsOr ∘ some) x host) = fbs.map id := by
        exact List.map_congr_left hcg
    _ = fbs := List.map_id fbs

theorem dialGo_hosts_plan (host : List Char) (port : Option Int) (ff : List Char)
    (env : Nat → DialOutcome) :
    ∀ (cands : List (Option (List Char))) (i : Nat) (s : Session),
    ∃ t, attemptHostsOf (dialGo host port ff env cands i s).2.1 ++ t =
      cands.map (fun c => jsOr c host) := by
  intro cands
  induction cands with
  | nil => intro i s; exact ⟨[], rfl⟩
  | cons cand rest ih =>
      intro i s
      simp only [dialGo]
      cases env i with
      | ok =>
          refine ⟨rest.map (fun c => jsOr c host), ?_⟩
          by_cases hff : ff.isEmpty <;>
            simp [hff, attemptHostsOf, List.filterMap_cons, List.filterMap_append]
      | fail m =>
          by_cases hcond : (!isCFError m || rest.isEmpty)
          · refine ⟨rest.map (fun c => jsOr c host), ?_⟩
            simp [hcond, attemptHostsOf, List.filterMap_cons]
          · obtain ⟨t, ht⟩ := ih (i + 1) ⟨s.isClosed, none, s.nextSid :: s.destroyed, s.nextSid + 1⟩
            refine ⟨t, ?_⟩
            simp only [if_neg hcond]
            simp only [attemptHostsOf, List.filterMap_cons] at ht ⊢
            simpa using ht

theorem dialGo_ports (host : List Char) (port : Option Int) (ff : List Char)
    (env : Nat → DialOutcome) :
    ∀ (cands : List (Option (List Char))) (i : Nat) (s : Session),
    ∀ pp ∈ attemptPortsOf (dialGo host port ff env cands i s).2.1, pp = port := by
  intro cands
  induction cands with
  | nil => intro i s pp hpp; simp [dialGo, attemptPortsOf] at hpp
  | cons cand rest ih =>
      intro i s pp hpp
      simp only [dialGo] at hpp
      cases henv : env i with
      | ok =>
          rw [henv] at hpp
          by_cases hff : ff.isEmpty <;>
            simp [hff, attemptPortsOf, List.filterMap_cons, List.filterMap_append] at hpp <;>
            exact hpp
      | fail m =>
          rw [henv] at hpp
          by_cases hcond : (!isCFError m || rest.isEmpty)
          · simp [hcond, attemptPortsOf, List.filterMap_cons] at hpp
            exact hpp
          · simp only [if_neg hcond, attemptPortsOf, List.filterMap_cons] at hpp
            simp at hpp
            rcases hpp with hpp | hpp
            · exact hpp
            · exact ih (i + 1) _ pp (by simpa [attemptPortsOf] using hpp)

theorem dialGo_stops_at_ok (host : List Char) (port : Option Int) (ff : List Char)
    (env : Nat → DialOutcome) :
    ∀ (cands : List (Option (List Char))) (j i : Nat) (s : Session),
    j < cands.length → env (i + j) = DialOutcome.ok →
    (∀ k, k < j → ∃ m, env (i + k) = DialOutcome.fail m ∧ isCFError m = true) →
    attemptHostsOf (dialGo host port ff env cands i s).2.1 =
      (cands.map (fun c => jsOr c host)).take (j + 1) ∧
    (dialGo host port ff env cands i s).2.2 = Except.ok () ∧
    ∃ sid, (dialGo host port ff env cands i s).1.remoteSocket = some sid ∧
      (attemptSidsOf (dialGo host port ff env cands i s).2.1).getLast? = some sid := by
  intro cands
  induction cands with
  | nil => intro j i s hj; simp at hj
  | cons cand rest ih =>
      intro j i s hj hok hk
      cases j with
      | zero =>
          rw [Nat.add_zero] at hok
          refine ⟨?_, ?_, s.nextSid, ?_, ?_⟩ <;>
            simp only [dialGo, hok] <;>
            by_cases hff : ff.isEmpty <;>
            simp [hff, attemptHostsOf, attemptSidsOf, List.filterMap_cons,
              List.filterMap_append]
      | succ j' =>
          obtain ⟨m, hm, hcf⟩ := hk 0 (Nat.succ_pos j')
          rw [Nat.add_zero] at hm
          have hrest : rest ≠ [] := by
            intro h0
            rw [h0] at hj
            simp at hj
          have hcond : ¬(!isCFError m || rest.isEmpty) = true := by
            simp [hcf, List.isEmpty_iff, hrest]
          simp only [dialGo, hm, if_neg hcond]
          have ihs := ih j' (i + 1) ⟨s.isClosed, none, s.nextSid :: s.destroyed, s.nextSid + 1⟩
            (by simpa using Nat.lt_of_succ_lt_succ (by simpa using hj))
            (by rw [show i + 1 + j' = i + (j' + 1) from by omega]; exact hok)
            (fun k hk' => by
              rw [show i + 1 + k = i + (k + 1) from by omega]
              exact hk (k + 1) (Nat.succ_lt_succ hk'))
          obtain ⟨hA, hB, sid, hC, hD⟩ := ihs
          refine ⟨?_, hB, sid, hC, ?_⟩
          · simp only [attemptHostsOf, List.filterMap_cons] at hA ⊢
            simp only [List.map_cons, List.take_cons]
            simpa using hA
          · simp only [attemptSidsOf, List.filterMap_cons] at hD ⊢
            have hne : attemptSidsOf (dialGo host port ff env rest (i + 1)
                ⟨s.isClosed, none, s.nextSid :: s.destroyed, s.nextSid + 1⟩).2.1 ≠ [] := by
              intro h0
              simp only [attemptSidsOf] at h0
              rw [h0] at hD
              simp at hD
            rcases hsids : attemptSidsOf (dialGo host port ff env rest (i + 1)
                ⟨s.isClosed, none, s.nextSid :: s.destroyed, s.nextSid + 1⟩).2.1 with _ | ⟨x, xs⟩
            · exact absurd hsids hne
            · simp only [attemptSidsOf] at hsids
              rw [hsids] at hD
              simpa [List.getLast?_cons_cons, hsids] using hD

theorem dialGo_fatal_stops (host : List Char) (port : Option Int) (ff : List Char)
    (env : Nat → DialOutcome) :
    ∀ (cands : List (Option (List Char))) (j i : Nat) (s : Session) (m : List Char),
    j < cands.length → env (i + j) = DialOutcome.fail m → isCFError m = false →
    (∀ k, k < j → ∃ mk, env (i + k) = DialOutcome.fail mk ∧ isCFError mk = true) →
    (dialGo host port ff env cands i s).2.2 = Except.error m ∧
    (attemptHostsOf (dialGo host port ff env cands i s).2.1).length = j + 1 := by
  intro cands
  induction cands with
  | nil => intro j i s m hj; simp at hj
  | cons cand rest ih =>
      intro j i s m hj hfail hcf hk
      cases j with
      | zero =>
          rw [Nat.add_zero] at hfail
          have hcond : (!isCFError m || rest.isEmpty) = true := by
            simp [hcf]
          simp only [dialGo, hfail, if_pos hcond]
          refine ⟨?_, ?_⟩ <;> simp [attemptHostsOf, List.filterMap_cons]
      | succ j' =>
          obtain ⟨mk, hm, hcfk⟩ := hk 0 (Nat.succ_pos j')
          rw [Nat.add_zero] at hm
          have hrest : rest ≠ [] := by
            intro h0
            rw [h0] at hj
            simp at hj
          have hcond : ¬(!isCFError mk || rest.isEmpty) = true := by
            simp [hcfk, List.isEmpty_iff, hrest]
          simp only [dialGo, hm, if_neg hcond]
          have ihs := ih j' (i + 1) ⟨s.isClosed, none, s.nextSid :: s.destroyed, s.nextSid + 1⟩ m
            (by simpa using Nat.lt_of_succ_lt_succ (by simpa using hj))
            (by rw [show i + 1 + j' = i + (j' + 1) from by omega]; exact hfail)
            hcf
            (fun k hk' => by
              rw [show i + 1 + k = i + (k + 1) from by omega]
              exact hk (k + 1) (Nat.succ_lt_succ hk'))
          refine ⟨ihs.1, ?_⟩
          have := ihs.2
          simp only [attemptHostsOf, List.filterMap_cons] at this ⊢
          simpa using this

theorem dialGo_all_retryable (host : List Char) (port : Option Int) (ff : List Char)
    (env : Nat → DialOutcome) :
    ∀ (cands : List (Option (List Char))) (i : Nat) (s : Session),
    cands ≠ [] →
    (∀ k, k < cands.length → ∃ mk, env (i + k) = DialOutcome.fail mk ∧ isCFError mk = true) →
    ∃ m, env (i + cands.length - 1) = DialOutcome.fail m ∧
      (dialGo host port ff env cands i s).2.2 = Except.error m ∧
      (attemptHostsOf (dialGo host port ff env cands i s).2.1).length = cands.length := by
  intro cands
  induction cands with
  | nil => intro i s hne; exact absurd rfl hne
  | cons cand rest ih =>
      intro i s _ hk
      obtain ⟨m0, hm0, hcf0⟩ := hk 0 (by simp)
      rw [Nat.add_zero] at hm0
      by_cases hrest0 : rest = []
      · subst hrest0
        refine ⟨m0, by simpa using hm0, ?_, ?_⟩
        · simp [dialGo, hm0]
        · simp [dialGo, hm0, attemptHostsOf, List.filterMap_cons]
      · have hcond : ¬(!isCFError m0 || rest.isEmpty) = true := by
          simp [hcf0, List.isEmpty_iff, hrest0]
        simp only [dialGo, hm0, if_neg hcond]
        have ihs := ih (i + 1) ⟨s.isClosed, none, s.nextSid :: s.destroyed, s.nextSid + 1⟩
          hrest0
          (fun k hk' => by
            rw [show i + 1 + k = i + (k + 1) from by omega]
            exact hk (k + 1) (by simpa using Nat.succ_lt_succ hk'))
        obtain ⟨m, hmr, hres, hlen⟩ := ihs
        refine ⟨m, ?_, hres, ?_⟩
        · rw [show i + (cand :: rest).length - 1 = i + 1 + rest.length - 1 from by
            rw [List.length_cons]; omega]
          exact hmr
        · simp only [attemptHostsOf, List.filterMap_cons] at hlen ⊢
          simp only [List.length_cons]
          simpa using hlen


/-- Claim C2: a dial for host H with fallback hosts F1..Fn attempts
candidates in exactly the order H, F1, ..., Fn, all at the same requested
port, stopping at the first success — and in the concrete scenario where H
and F1 fail with a retryable-class error and F2 succeeds, exactly the three
attempts H, F1, F2 occur in that order and the connection kept is the one
from F2's attempt. -/
theorem claim2_fallback_order :
    (∀ host port ff fbs env s, [] ∉ fbs →
      (∃ t, attemptHostsOf (dialFrom host port ff fbs env s).2.1 ++ t = host :: fbs) ∧
      (∀ pp ∈ attemptPortsOf (dialFrom host port ff fbs env s).2.1, pp = port)) ∧
    (∀ host port ff fbs env s j, [] ∉ fbs → j < fbs.length + 1 →
      env j = DialOutcome.ok →
      (∀ k, k < j → ∃ m, env k = DialOutcome.fail m ∧ isCFError m = true) →
      attemptHostsOf (dialFrom host port ff fbs env s).2.1 = (host :: fbs).take (j + 1) ∧
      (dialFrom host port ff fbs env s).2.2 = Except.ok () ∧
      ∃ sid, (dialFrom host port ff fbs env s).1.remoteSocket = some sid ∧
        (attemptSidsOf (dialFrom host port ff fbs env s).2.1).getLast? = some sid) ∧
    (∀ host port ff f1 f2 env s m1 m2,
      f1 ≠ ([] : List Char) → f2 ≠ ([] : List Char) →
      isCFError m1 = true → isCFError m2 = true →
      env 0 = DialOutcome.fail m1 → env 1 = DialOutcome.fail m2 → env 2 = DialOutcome.ok →
      attemptHostsOf (dialFrom host port ff [f1, f2] env s).2.1 = [host, f1, f2] ∧
      (dialFrom host port ff [f1, f2] env s).2.2 = Except.ok () ∧
      ∃ sid, (dialFrom host port ff [f1, f2] env s).1.remoteSocket = some sid ∧
        (attemptSidsOf (dialFrom host port ff [f1, f2] env s).2.1).getLast? = some sid) := by
  have hstop : ∀ host port ff fbs env s j, [] ∉ fbs → j < fbs.length + 1 →
      env j = DialOutcome.ok →
      (∀ k, k < j → ∃ m, env k = DialOutcome.fail m ∧ isCFError m = true) →
      attemptHostsOf (dialFrom host port ff fbs env s).2.1 = (host :: fbs).take (j + 1) ∧
      (dialFrom host port ff fbs env s).2.2 = Except.ok () ∧
      ∃ sid, (dialFrom host port ff fbs env s).1.remoteSocket = some sid ∧
        (attemptSidsOf (dialFrom host port ff fbs env s).2.1).getLast? = some sid := by
    intro host port ff fbs env s j hne hj hok hk
    have hlen : j < (none :: fbs.map some).length := by simp; omega
    have h := dialGo_stops_at_ok host port ff env (none :: fbs.map some) j 0 s hlen
      (by simpa using hok) (fun k hk' => by simpa using hk k hk')
    rw [plan_hosts host fbs hne] at h
    exact h
  refine ⟨?_, hstop, ?_⟩
  · intro host port ff fbs env s hne
    constructor
    · obtain ⟨t, ht⟩ := dialGo_hosts_plan host port ff env (none :: fbs.map some) 0 s
      rw [plan_hosts host fbs hne] at ht
      exact ⟨t, ht⟩
    · exact dialGo_ports host port ff env (none :: fbs.map some) 0 s
  · intro host port ff f1 f2 env s m1 m2 h1 h2 hcf1 hcf2 he0 he1 he2
    have hk : ∀ k, k < 2 → ∃ m, env k = DialOutcome.fail m ∧ isCFError m = true := by
      intro k hki
      interval_cases k
      · exact ⟨m1, he0, hcf1⟩
      · exact ⟨m2, he1, hcf2⟩
    have h := hstop host port ff [f1, f2] env s 2
      (by simp [Ne.symm h1, Ne.symm h2, h1, h2]) (by simp) he2 hk
    simpa using h

/-- Witness for claim C2: concrete hosts, ports and outcome environment
discharging every hypothesis of each part. -/
theorem claim2_fallback_order_witness :
    (∃ t, attemptHostsOf
        (dialFrom ("h".toList) (some 443) [] [("f1".toList), ("f2".toList)]
          (fun i => if i = 2 then DialOutcome.ok else DialOutcome.fail ("etimedout".toList))
          initSession).2.1 ++ t = ("h".toList) :: [("f1".toList), ("f2".toList)]) ∧
    attemptHostsOf
        (dialFrom ("h".toList) (some 443) [] [("f1".toList), ("f2".toList)]
          (fun i => if i = 2 then DialOutcome.ok else DialOutcome.fail ("etimedout".toList))
          initSession).2.1 = [("h".toList), ("f1".toList), ("f2".toList)] := by
  have hA := (claim2_fallback_order.1 ("h".toList) (some 443) [] [("f1".toList), ("f2".toList)]
    (fun i => if i = 2 then DialOutcome.ok else DialOutcome.fail ("etimedout".toList))
    initSession (by decide)).1
  have hB := claim2_fallback_order.2.2 ("h".toList) (some 443) [] ("f1".toList) ("f2".toList)
    (fun i => if i = 2 then DialOutcome.ok else DialOutcome.fail ("etimedout".toList))
    initSession ("etimedout".toList) ("etimedout".toList)
    (by decide) (by decide) (by decide) (by decide) rfl rfl rfl
  exact ⟨hA, hB.1⟩

/-- Claim C3: a dial attempt failing with a non-retryable error (its
lowercased message contains none of the four markers) makes `connectToRemote`
fail immediately with that error and attempt no further candidate — exactly
one attempt when this happens on the first candidate; and when every
candidate fails with a retryable-class error the dial fails with the last
attempt's error after attempting the whole plan. -/
theorem claim3_error_short_circuit :
    (∀ host port ff fbs env s j m, j < fbs.length + 1 →
      env j = DialOutcome.fail m → isCFError m = false →
      (∀ k, k < j → ∃ mk, env k = DialOutcome.fail mk ∧ isCFError mk = true) →
      (dialFrom host port ff fbs env s).2.2 = Except.error m ∧
      (attemptHostsOf (dialFrom host port ff fbs env s).2.1).length = j + 1) ∧
    (∀ host port ff fbs env s m,
      env 0 = DialOutcome.fail m → isCFError m = false →
      (dialFrom host port ff fbs env s).2.2 = Except.error m ∧
      (attemptHostsOf (dialFrom host port ff fbs env s).2.1).length = 1) ∧
    (∀ host port ff fbs env s,
      (∀ k, k < fbs.length + 1 → ∃ mk, env k = DialOutcome.fail mk ∧ isCFError mk = true) →
      ∃ m, env fbs.length = DialOutcome.fail m ∧
        (dialFrom host port ff fbs env s).2.2 = Except.error m ∧
        (attemptHostsOf (dialFrom host port ff fbs env s).2.1).length = fbs.length + 1) := by
  have hfat : ∀ host port ff fbs env s j m, j < fbs.length + 1 →
      env j = DialOutcome.fail m → isCFError m = false →
      (∀ k, k < j → ∃ mk, env k = DialOutcome.fail mk ∧ isCFError mk = true) →
      (dialFrom host port ff fbs env s).2.2 = Except.error m ∧
      (attemptHostsOf (dialFrom host port ff fbs env s).2.1).length = j + 1 := by
    intro host port ff fbs env s j m hj hfail hcf hk
    exact dialGo_fatal_stops host port ff env (none :: fbs.map some) j 0 s m
      (by simp; omega) (by simpa using hfail) hcf
      (fun k hk' => by simpa using hk k hk')
  refine ⟨hfat, ?_, ?_⟩
  · intro host port ff fbs env s m hfail hcf
    exact hfat host port ff fbs env s 0 m (by omega) hfail hcf (by omega)
  · intro host port ff fbs env s hk
    have h := dialGo_all_retryable host port ff env (none :: fbs.map some) 0 s
      (by simp) (fun k hk' => by
        rw [Nat.zero_add]
        exact hk k (by simpa using hk'))
    obtain ⟨m, hm, hres, hlen⟩ := h
    refine ⟨m, ?_, hres, by simpa using hlen⟩
    simpa using hm

/-- Witness for claim C3: a non-retryable first failure stops after one
attempt; an all-retryable environment exhausts the plan. -/
theorem claim3_error_short_circuit_witness :
    ((dialFrom ("h".toList) (some 80) [] [("f1".toList)]
        (fun _ => DialOutcome.fail ("boom".toList)) initSession).2.2 =
      Except.error ("boom".toList) ∧
     (attemptHostsOf (dialFrom ("h".toList) (some 80) [] [("f1".toList)]
        (fun _ => DialOutcome.fail ("boom".toList)) initSession).2.1).length = 1) ∧
    (∃ m, (fun _ => DialOutcome.fail ("etimedout".toList)) 1 = DialOutcome.fail m ∧
      (dialFrom ("h".toList) (some 80) [] [("f1".toList)]
        (fun _ => DialOutcome.fail ("etimedout".toList)) initSession).2.2 =
        Except.error m ∧
      (attemptHostsOf (dialFrom ("h".toList) (some 80) [] [("f1".toList)]
        (fun _ => DialOutcome.fail ("etimedout".toList)) initSession).2.1).length = 2) := by
  refine ⟨claim3_error_short_circuit.2.1 ("h".toList) (some 80) [] [("f1".toList)]
    (fun _ => DialOutcome.fail ("boom".toList)) initSession ("boom".toList) rfl (by decide), ?_⟩
  have h := claim3_error_short_circuit.2.2 ("h".toList) (some 80) [] [("f1".toList)]
    (fun _ => DialOutcome.fail ("etimedout".toList)) initSession
    (fun k _ => ⟨("etimedout".toList), rfl, by decide⟩)
  simpa using h


/-! ## Claim C6: resolution failure is absorbed inside the dial loop -/

theorem dial2Go_trace (host : List Char) (env : Dial2Env) :
    ∀ (cands : List (Option (List Char))) (j i : Nat) (cand : Option (List Char)),
    cands.get? j = some cand →
    (∀ k, k < j → ∃ m, env.conn (i + k) = DialOutcome.fail m ∧ isCFError m = true) →
    (dial2Go host env cands i).1.get? j =
      some ⟨jsOr cand host, resolvedHostOf env (i + j) (jsOr cand host)⟩ := by
  intro cands
  induction cands with
  | nil => intro j i cand hg; simp at hg
  | cons c rest ih =>
      intro j i cand hg hk
      cases j with
      | zero =>
          simp only [List.get?_cons_zero, Option.some_inj] at hg
          subst hg
          rw [Nat.add_zero]
          cases henv : env.conn i with
          | ok => simp [dial2Go, henv]
          | fail m =>
              by_cases hcond : (!isCFError m || rest.isEmpty) <;>
                simp [dial2Go, henv, hcond]
      | succ j' =>
          obtain ⟨m, hm, hcf⟩ := hk 0 (Nat.succ_pos j')
          rw [Nat.add_zero] at hm
          have hrest : rest ≠ [] := by
            intro h0
            rw [h0] at hg
            simp at hg
          have hcond : ¬(!isCFError m || rest.isEmpty) = true := by
            simp [hcf, List.isEmpty_iff, hrest]
          simp only [dial2Go, hm, if_neg hcond]
          have := ih j' (i + 1) cand (by simpa using hg)
            (fun k hk' => by
              rw [show i + 1 + k = i + (k + 1) from by omega]
              exact hk (k + 1) (Nat.succ_lt_succ hk'))
          simp only [List.get?_cons_succ]
          rw [this, show i + 1 + j' = i + (j' + 1) from by omega]

theorem dial2Go_conn_only (host : List Char) :
    ∀ (cands : List (Option (List Char))) (i : Nat) (env env' : Dial2Env),
    env.conn = env'.conn →
    (dial2Go host env cands i).2 = (dial2Go host env' cands i).2 ∧
    (dial2Go host env cands i).1.map Att2.target =
      (dial2Go host env' cands i).1.map Att2.target := by
  intro cands
  induction cands with
  | nil => intro i env env' _; exact ⟨rfl, rfl⟩
  | cons c rest ih =>
      intro i env env' hconn
      have hc : env.conn i = env'.conn i := by rw [hconn]
      cases henv : env'.conn i with
      | ok => simp [dial2Go, hc, henv]
      | fail m =>
          by_cases hcond : (!isCFError m || rest.isEmpty)
          · simp [dial2Go, hc, henv, hcond]
          · have := ih (i + 1) env env' hconn
            simp only [dial2Go, hc, henv, if_neg hcond, List.map_cons]
            exact ⟨this.1, by rw [this.2]⟩

/-- Claim C6: inside the resolver-aware dial loop, a total failure of the
resolver for a non-IP candidate does not abort or fail the connection
attempt: the attempt still occurs, dialing the original candidate hostname
string — and the loop's control flow and outcome depend only on the connect
outcomes, never on the resolver. -/
theorem claim6_resolution_absorbed :
    (∀ host fbs (env : Dial2Env) i cand,
      (none :: fbs.map some).get? i = some cand →
      (∀ k, k < i → ∃ m, env.conn k = DialOutcome.fail m ∧ isCFError m = true) →
      env.isIP (jsOr cand host) = false →
      env.resolveOk i (jsOr cand host) = none →
      (connectToRemote2 host fbs env).1.get? i =
        some ⟨jsOr cand host, jsOr cand host⟩) ∧
    (∀ host fbs (env env' : Dial2Env), env.conn = env'.conn →
      (connectToRemote2 host fbs env).2 = (connectToRemote2 host fbs env').2 ∧
      (connectToRemote2 host fbs env).1.map Att2.target =
        (connectToRemote2 host fbs env').1.map Att2.target) := by
  constructor
  · intro host fbs env i cand hg hk hip hres
    have h := dial2Go_trace host env (none :: fbs.map some) i 0 cand hg
      (fun k hk' => by simpa using hk k hk')
    rw [Nat.zero_add] at h
    rw [show resolvedHostOf env i (jsOr cand host) = jsOr cand host from by
      unfold resolvedHostOf
      rw [if_neg (by simp [hip]), hres]] at h
    exact h
  · intro host fbs env env' hconn
    exact dial2Go_conn_only host (none :: fbs.map some) 0 env env' hconn

/-- Witness for claim C6: a candidate whose resolution fails is dialed under
its own name. -/
theorem claim6_resolution_absorbed_witness :
    (connectToRemote2 ("h.example".toList) []
      ⟨fun _ => false, fun _ _ => none, fun _ => DialOutcome.ok⟩).1.get? 0 =
      some ⟨"h.example".toList, "h.example".toList⟩ :=
  claim6_resolution_absorbed.1 ("h.example".toList) []
    ⟨fun _ => false, fun _ _ => none, fun _ => DialOutcome.ok⟩ 0 none rfl
    (fun k hk => absurd hk (Nat.not_lt_zero k)) rfl rfl


/-! ## Claim C1: idempotent teardown

`sessionInv` is the data invariant of a session state: the destroyed list has
no duplicates, the live socket is neither destroyed nor outside the allocated
range, and destroyed ids are allocated.  `StepOk s t effs` packages what one
dispatch preserves: the invariant, no duplicate destroy in the emitted trace,
every emitted destroy is new and recorded, and monotonicity of the record and
the allocator. -/

def sessionInv (s : Session) : Prop :=
  s.destroyed.Nodup ∧
  (∀ sid, s.remoteSocket = some sid → sid ∉ s.destroyed ∧ sid < s.nextSid) ∧
  (∀ d ∈ s.destroyed, d < s.nextSid)

def StepOk (s t : Session) (effs : List Eff) : Prop :=
  sessionInv t ∧ (destroysOf effs).Nodup ∧
  (∀ d ∈ destroysOf effs, d ∉ s.destroyed ∧ d ∈ t.destroyed) ∧
  s.destroyed ⊆ t.destroyed ∧ s.nextSid ≤ t.nextSid

theorem stepOk_refl {s : Session} (hinv : sessionInv s) {effs : List Eff}
    (he : destroysOf effs = []) : StepOk s s effs := by
  refine ⟨hinv, by simp [he], by simp [he], List.Subset.refl _, Nat.le_refl _⟩

theorem stepOk_trans {s t u : Session} {e1 e2 : List Eff}
    (h1 : StepOk s t e1) (h2 : StepOk t u e2) : StepOk s u (e1 ++ e2) := by
  obtain ⟨hti, hn1, hm1, hs1, hx1⟩ := h1
  obtain ⟨hui, hn2, hm2, hs2, hx2⟩ := h2
  refine ⟨hui, ?_, ?_, fun d hd => hs2 (hs1 hd), Nat.le_trans hx1 hx2⟩
  · rw [destroysOf_append]
    refine List.Nodup.append hn1 hn2 ?_
    intro d hd1 hd2
    exact (hm2 d hd2).1 ((hm1 d hd1).2)
  · rw [destroysOf_append]
    intro d hd
    rcases List.mem_append.mp hd with hd | hd
    · exact ⟨(hm1 d hd).1, hs2 (hm1 d hd).2⟩
    · exact ⟨fun hds => (hm2 d hd).1 (hs1 hds), (hm2 d hd).2⟩

theorem stepOk_congr {s t : Session} {e1 e2 : List Eff}
    (h : StepOk s t e1) (he : destroysOf e2 = destroysOf e1) : StepOk s t e2 := by
  obtain ⟨hti, hn1, hm1, hs1, hx1⟩ := h
  exact ⟨hti, he ▸ hn1, he ▸ hm1, hs1, hx1⟩

theorem cleanup_stepOk {s : Session} (hinv : sessionInv s) :
    StepOk s (cleanup s).1 (cleanup s).2 := by
  obtain ⟨hnd, hrs, hlt⟩ := hinv
  by_cases hc : s.isClosed
  · have hcs : cleanup s = (s, []) := by simp [cleanup, hc]
    rw [hcs]
    exact stepOk_refl ⟨hnd, hrs, hlt⟩ rfl
  · rcases hr : s.remoteSocket with _ | sid
    · have hcs : cleanup s = (⟨true, none, s.destroyed, s.nextSid⟩, [Eff.wsClose]) := by
        unfold cleanup
        rw [if_neg hc, hr]
      rw [hcs]
      exact ⟨⟨hnd, by simp, hlt⟩, by simp [destroysOf], by simp [destroysOf],
        List.Subset.refl _, Nat.le_refl _⟩
    · obtain ⟨hnin, hslt⟩ := hrs sid hr
      have hcs : cleanup s = (⟨true, none, sid :: s.destroyed, s.nextSid⟩,
          [Eff.sockDestroy sid, Eff.wsClose]) := by
        unfold cleanup
        rw [if_neg hc, hr]
      rw [hcs]
      refine ⟨⟨List.nodup_cons.mpr ⟨hnin, hnd⟩, by simp, ?_⟩, ?_, ?_,
        fun d hd => List.mem_cons_of_mem _ hd, Nat.le_refl _⟩
      · intro d hd
        show d < s.nextSid
        rcases List.mem_cons.mp hd with hd | hd
        · exact hd ▸ hslt
        · exact hlt d hd
      · simp [destroysOf, List.filterMap_cons]
      · intro d hd
        simp [destroysOf, List.filterMap_cons] at hd
        subst hd
        exact ⟨hnin, List.mem_cons_self _ _⟩

theorem destroysOf_writeToSock (s : Session) (b : List Char) :
    destroysOf (writeToSock s b) = [] := by
  unfold writeToSock
  rcases s.remoteSocket with _ | sid
  · rfl
  · by_cases hd : s.destroyed.contains sid <;> simp [hd, destroysOf]

theorem dialGo_stepOk (host : List Char) (port : Option Int) (ff : List Char)
    (env : Nat → DialOutcome) :
    ∀ (cands : List (Option (List Char))) (i : Nat) (s : Session),
    sessionInv s →
    StepOk s (dialGo host port ff env cands i s).1 (dialGo host port ff env cands i s).2.1 := by
  intro cands
  induction cands with
  | nil => intro i s hinv; exact stepOk_refl hinv rfl
  | cons cand rest ih =>
      intro i s hinv
      obtain ⟨hnd, hrs, hlt⟩ := hinv
      cases henv : env i with
      | ok =>
          simp only [dialGo, henv]
          refine ⟨⟨hnd, ?_, fun d hd => Nat.lt_succ_of_lt (hlt d hd)⟩, ?_, ?_,
            List.Subset.refl _, Nat.le_succ _⟩
          · intro sid hsid
            simp only [Option.some_inj] at hsid
            subst hsid
            exact ⟨fun hmem => Nat.lt_irrefl _ (hlt _ hmem), Nat.lt_succ_self _⟩
          · by_cases hff : ff.isEmpty <;> simp [hff, destroysOf, List.filterMap_cons]
          · by_cases hff : ff.isEmpty <;> simp [hff, destroysOf, List.filterMap_cons]
      | fail m =>
          have hfresh : s.nextSid ∉ s.destroyed :=
            fun hmem => Nat.lt_irrefl _ (hlt _ hmem)
          have hinv2 : sessionInv ⟨s.isClosed, none, s.nextSid :: s.destroyed, s.nextSid + 1⟩ := by
            refine ⟨List.nodup_cons.mpr ⟨hfresh, hnd⟩, by simp, ?_⟩
            intro d hd
            show d < s.nextSid + 1
            rcases List.mem_cons.mp hd with hd | hd
            · omega
            · exact Nat.lt_succ_of_lt (hlt d hd)
          have hhead : StepOk s ⟨s.isClosed, none, s.nextSid :: s.destroyed, s.nextSid + 1⟩
              [Eff.connAttempt (jsOr cand host) port s.nextSid, Eff.sockDestroy s.nextSid] := by
            refine ⟨hinv2, by simp [destroysOf, List.filterMap_cons], ?_,
              fun d hd => List.mem_cons_of_mem _ hd, Nat.le_succ _⟩
            intro d hd
            simp only [destroysOf, List.filterMap_cons] at hd
            simp at hd
            subst hd
            exact ⟨hfresh, List.mem_cons_self _ _⟩
          by_cases hcond : (!isCFError m || rest.isEmpty)
          · simp only [dialGo, henv, if_pos hcond]
            exact hhead
          · simp only [dialGo, henv, if_neg hcond]
            have htail := ih (i + 1) ⟨s.isClosed, none, s.nextSid :: s.destroyed, s.nextSid + 1⟩
              hinv2
            have := stepOk_trans hhead htail
            exact stepOk_congr this (by simp [destroysOf, List.filterMap_cons])

theorem handleConnect_stepOk (s : Session) (m : List Char) (fbs : List (List Char))
    (env : Nat → DialOutcome) (hinv : sessionInv s) :
    StepOk s (handleConnect s m fbs env).1 (handleConnect s m fbs env).2 := by
  have h1 : StepOk s (connectToRemote (jsSubL m 8 (jsIndexOfFromL m '|' 8))
      (jsSubFromL m (jsIndexOfFromL m '|' 8 + 1)) fbs env s).1
      (connectToRemote (jsSubL m 8 (jsIndexOfFromL m '|' 8))
      (jsSubFromL m (jsIndexOfFromL m '|' 8 + 1)) fbs env s).2.1 :=
    dialGo_stepOk (parseAddressL (jsSubL m 8 (jsIndexOfFromL m '|' 8))).1
      (parseAddressL (jsSubL m 8 (jsIndexOfFromL m '|' 8))).2
      (jsSubFromL m (jsIndexOfFromL m '|' 8 + 1)) env (none :: fbs.map some) 0 s hinv
  simp only [handleConnect]
  rcases hres : (connectToRemote (jsSubL m 8 (jsIndexOfFromL m '|' 8))
      (jsSubFromL m (jsIndexOfFromL m '|' 8 + 1)) fbs env s).2.2 with em | u
  · simp only [hres]
    have h2 := cleanup_stepOk (s := (connectToRemote (jsSubL m 8 (jsIndexOfFromL m '|' 8))
      (jsSubFromL m (jsIndexOfFromL m '|' 8 + 1)) fbs env s).1) h1.1
    exact stepOk_congr (stepOk_trans h1 h2) (by
      simp [destroysOf_append, destroysOf, List.filterMap_cons])
  · simp only [hres]
    exact h1

theorem onMessage_stepOk (s : Session) (f : Frame) (fbs : List (List Char))
    (env : Nat → DialOutcome) (hinv : sessionInv s) :
    StepOk s (onMessage s f fbs env).1 (onMessage s f fbs env).2 := by
  unfold onMessage
  by_cases hc : s.isClosed
  · rw [if_pos hc]
    exact stepOk_refl hinv rfl
  · rw [if_neg hc]
    by_cases h1 : hasPre connectPat f.toMsg
    · rw [if_pos h1]
      exact handleConnect_stepOk s f.toMsg fbs env hinv
    · rw [if_neg h1]
      by_cases h2 : hasPre dataPat f.toMsg
      · rw [if_pos h2]
        exact stepOk_refl hinv (destroysOf_writeToSock s _)
      · rw [if_neg h2]
        by_cases h3 : f.toMsg = closeMsg
        · rw [if_pos h3]
          exact cleanup_stepOk hinv
        · rw [if_neg h3]
          by_cases h4 : f.isBuf
          · rw [if_pos h4]
            exact stepOk_refl hinv (destroysOf_writeToSock s _)
          · rw [if_neg h4]
            exact stepOk_refl hinv rfl

theorem step_stepOk (fbs : List (List Char)) (s : Session) (e : SEvent)
    (hinv : sessionInv s) :
    StepOk s (step fbs s e).1 (step fbs s e).2 := by
  cases e with
  | wsMessage f env => exact onMessage_stepOk s f fbs env hinv
  | wsClosed => exact cleanup_stepOk hinv
  | wsErrored => exact cleanup_stepOk hinv
  | sockError sid => exact cleanup_stepOk hinv
  | sockData sid bytes wsIsOpen sendOk =>
      by_cases hc : s.isClosed
      · have hcs : step fbs s (SEvent.sockData sid bytes wsIsOpen sendOk) = (s, []) := by
          simp [step, hc]
        rw [hcs]
        exact stepOk_refl hinv rfl
      · simp only [step, if_neg hc]
        by_cases ho : wsIsOpen
        · rw [if_pos ho]
          by_cases hk : sendOk
          · rw [if_pos hk]
            exact stepOk_refl hinv rfl
          · rw [if_neg hk]
            exact cleanup_stepOk hinv
        · rw [if_neg ho]
          exact stepOk_refl hinv rfl
  | sockEnd sid =>
      by_cases hc : s.isClosed
      · have hcs : step fbs s (SEvent.sockEnd sid) = (s, []) := by
          simp [step, hc]
        rw [hcs]
        exact stepOk_refl hinv rfl
      · simp only [step, if_neg hc]
        exact stepOk_congr (cleanup_stepOk hinv)
          (by simp [destroysOf, List.filterMap_cons])

theorem runSession_stepOk (fbs : List (List Char)) :
    ∀ (evs : List SEvent) (s : Session), sessionInv s →
    StepOk s (runSession fbs s evs).1 (runSession fbs s evs).2 := by
  intro evs
  induction evs with
  | nil => intro s hinv; exact stepOk_refl hinv rfl
  | cons e es ih =>
      intro s hinv
      have h1 := step_stepOk fbs s e hinv
      have h2 := ih (step fbs s e).1 h1.1
      exact stepOk_trans h1 h2

theorem initSession_inv : sessionInv initSession := by
  refine ⟨List.nodup_nil, ?_, ?_⟩ <;> simp [initSession]

/-- Claim C1: teardown is idempotent — once a session is closed, every
subsequent event (any client frame, client disconnect or error, TCP error,
EOF or data) is a no-op producing no write, send, destroy or close at all;
running `cleanup` after `cleanup` changes nothing; and over any whole session
run each socket's destroy routine is invoked at most once. -/
theorem claim1_idempotent_teardown :
    (∀ fbs s e, s.isClosed = true → step fbs s e = (s, [])) ∧
    (∀ s, (cleanup s).1.isClosed = true ∧ cleanup (cleanup s).1 = ((cleanup s).1, [])) ∧
    (∀ fbs evs, (destroysOf (runSession fbs initSession evs).2).Nodup) := by
  refine ⟨?_, ?_, ?_⟩
  · intro fbs s e hc
    cases e <;> simp [step, onMessage, cleanup, hc]
  · intro s
    by_cases hc : s.isClosed
    · simp [cleanup, hc]
    · rcases hr : s.remoteSocket with _ | sid <;> simp [cleanup, hc, hr]
  · intro fbs evs
    exact (runSession_stepOk fbs evs initSession initSession_inv).2.1

/-- Witness for claim C1 at a closed state and a concrete event list. -/
theorem claim1_idempotent_teardown_witness :
    step [] ⟨true, some 5, [], 6⟩ SEvent.wsClosed = (⟨true, some 5, [], 6⟩, []) ∧
    (destroysOf (runSession [] initSession
      [SEvent.wsMessage (Frame.text ("CONNECT:h:1|".toList)) (fun _ => DialOutcome.ok),
       SEvent.sockEnd 0, SEvent.wsClosed]).2).Nodup :=
  ⟨claim1_idempotent_teardown.1 [] ⟨true, some 5, [], 6⟩ SEvent.wsClosed rfl,
   claim1_idempotent_teardown.2.2 []
     [SEvent.wsMessage (Frame.text ("CONNECT:h:1|".toList)) (fun _ => DialOutcome.ok),
      SEvent.sockEnd 0, SEvent.wsClosed]⟩


/-! ## Claim C4: concurrent Connect-requests -/

theorem hasPre_append (p r : List Char) : hasPre p (p ++ r) = true := by
  induction p with
  | nil => rfl
  | cons a ps ih => simp [hasPre, ih]

theorem cleanup_no_destroy {t : Session} (h : t.remoteSocket = none) :
    destroysOf (cleanup t).2 = [] := by
  by_cases hc : t.isClosed
  · simp [cleanup, hc, destroysOf]
  · simp [cleanup, hc, h, destroysOf]

theorem dialGo_destroys_fresh (host : List Char) (port : Option Int) (ff : List Char)
    (env : Nat → DialOutcome) :
    ∀ (cands : List (Option (List Char))) (i : Nat) (s : Session),
    ∀ d ∈ destroysOf (dialGo host port ff env cands i s).2.1, s.nextSid ≤ d := by
  intro cands
  induction cands with
  | nil => intro i s d hd; simp [dialGo, destroysOf] at hd
  | cons cand rest ih =>
      intro i s d hd
      cases henv : env i with
      | ok =>
          by_cases hff : ff.isEmpty <;>
            simp [dialGo, henv, hff, destroysOf, List.filterMap_cons,
              List.filterMap_append] at hd
      | fail m =>
          by_cases hcond : (!isCFError m || rest.isEmpty)
          · simp [dialGo, henv, hcond, destroysOf, List.filterMap_cons] at hd
            omega
          · simp only [dialGo, henv, if_neg hcond, destroysOf, List.filterMap_cons] at hd
            simp at hd
            rcases hd with hd | hd
            · omega
            · have := ih (i + 1) ⟨s.isClosed, none, s.nextSid :: s.destroyed, s.nextSid + 1⟩ d
                (by simpa [destroysOf] using hd)
              simp at this
              omega

theorem dialGo_error_none (host : List Char) (port : Option Int) (ff : List Char)
    (env : Nat → DialOutcome) :
    ∀ (cands : List (Option (List Char))) (i : Nat) (s : Session) (m : List Char),
    (dialGo host port ff env cands i s).2.2 = Except.error m →
    (dialGo host port ff env cands i s).1.remoteSocket = none := by
  intro cands
  induction cands with
  | nil => intro i s m hm; simp [dialGo] at hm
  | cons cand rest ih =>
      intro i s m hm
      cases henv : env i with
      | ok => simp [dialGo, henv] at hm
      | fail mk =>
          by_cases hcond : (!isCFError mk || rest.isEmpty)
          · simp [dialGo, henv, hcond]
          · simp only [dialGo, henv, if_neg hcond] at hm ⊢
            exact ih (i + 1) _ m hm

theorem dialGo_sids_nonempty (host : List Char) (port : Option Int) (ff : List Char)
    (env : Nat → DialOutcome) (cand : Option (List Char)) (rest : List (Option (List Char)))
    (i : Nat) (s : Session) :
    attemptSidsOf (dialGo host port ff env (cand :: rest) i s).2.1 ≠ [] := by
  cases henv : env i with
  | ok =>
      by_cases hff : ff.isEmpty <;>
        simp [dialGo, henv, hff, attemptSidsOf, List.filterMap_cons, List.filterMap_append]
  | fail m =>
      by_cases hcond : (!isCFError m || rest.isEmpty) <;>
        simp [dialGo, henv, hcond, attemptSidsOf, List.filterMap_cons]

theorem dialGo_kept_or_destroyed (host : List Char) (port : Option Int) (ff : List Char)
    (env : Nat → DialOutcome) :
    ∀ (cands : List (Option (List Char))) (i : Nat) (s : Session),
    ∀ sid ∈ attemptSidsOf (dialGo host port ff env cands i s).2.1,
      sid ∈ destroysOf (dialGo host port ff env cands i s).2.1 ∨
      (dialGo host port ff env cands i s).1.remoteSocket = some sid := by
  intro cands
  induction cands with
  | nil => intro i s sid hsid; simp [dialGo, attemptSidsOf] at hsid
  | cons cand rest ih =>
      intro i s sid hsid
      cases henv : env i with
      | ok =>
          right
          by_cases hff : ff.isEmpty <;>
            simp [dialGo, henv, hff, attemptSidsOf, List.filterMap_cons,
              List.filterMap_append] at hsid <;>
            simp [dialGo, henv, hff, hsid]
      | fail m =>
          by_cases hcond : (!isCFError m || rest.isEmpty)
          · left
            simp [dialGo, henv, hcond, attemptSidsOf, List.filterMap_cons] at hsid
            simp [dialGo, henv, hcond, destroysOf, List.filterMap_cons, hsid]
          · simp only [dialGo, henv, if_neg hcond, attemptSidsOf,
              List.filterMap_cons] at hsid ⊢
            simp at hsid
            rcases hsid with hsid | hsid
            · left
              simp [destroysOf, List.filterMap_cons, hsid]
            · rcases ih (i + 1) ⟨s.isClosed, none, s.nextSid :: s.destroyed, s.nextSid + 1⟩ sid
                (by simpa [attemptSidsOf] using hsid) with hin | hin
              · left
                simp [destroysOf, List.filterMap_cons]
                right
                simpa [destroysOf] using hin
              · right
                exact hin

theorem onMessage_connect (s : Session) (rest : List Char) (fbs : List (List Char))
    (env : Nat → DialOutcome) (hc : s.isClosed = false) :
    onMessage s (Frame.text (connectPat ++ rest)) fbs env =
      handleConnect s (connectPat ++ rest) fbs env := by
  unfold onMessage
  rw [if_neg (by simp [hc])]
  simp only [Frame.toMsg]
  rw [if_pos (hasPre_append connectPat rest)]

theorem handleConnect_fresh (s : Session) (m : List Char) (fbs : List (List Char))
    (env : Nat → DialOutcome) (sid : Nat) (hlt : sid < s.nextSid) :
    sid ∉ destroysOf (handleConnect s m fbs env).2 ∧
    attemptSidsOf (handleConnect s m fbs env).2 ≠ [] := by
  simp only [handleConnect]
  rcases hres : (connectToRemote (jsSubL m 8 (jsIndexOfFromL m '|' 8))
      (jsSubFromL m (jsIndexOfFromL m '|' 8 + 1)) fbs env s).2.2 with em | u
  · simp only [hres]
    constructor
    · rw [destroysOf_append]
      intro hmem
      rcases List.mem_append.mp hmem with hmem | hmem
      · have := dialGo_destroys_fresh (parseAddressL (jsSubL m 8 (jsIndexOfFromL m '|' 8))).1
          (parseAddressL (jsSubL m 8 (jsIndexOfFromL m '|' 8))).2
          (jsSubFromL m (jsIndexOfFromL m '|' 8 + 1)) env (none :: fbs.map some) 0 s sid hmem
        omega
      · have hnone : (connectToRemote (jsSubL m 8 (jsIndexOfFromL m '|' 8))
            (jsSubFromL m (jsIndexOfFromL m '|' 8 + 1)) fbs env s).1.remoteSocket = none :=
          dialGo_error_none (parseAddressL (jsSubL m 8 (jsIndexOfFromL m '|' 8))).1
            (parseAddressL (jsSubL m 8 (jsIndexOfFromL m '|' 8))).2
            (jsSubFromL m (jsIndexOfFromL m '|' 8 + 1)) env (none :: fbs.map some) 0 s em hres
        rw [show destroysOf (Eff.wsSend (errMark ++ em) ::
            (cleanup (connectToRemote (jsSubL m 8 (jsIndexOfFromL m '|' 8))
              (jsSubFromL m (jsIndexOfFromL m '|' 8 + 1)) fbs env s).1).2) =
            destroysOf (cleanup (connectToRemote (jsSubL m 8 (jsIndexOfFromL m '|' 8))
              (jsSubFromL m (jsIndexOfFromL m '|' 8 + 1)) fbs env s).1).2 from by
          simp [destroysOf, List.filterMap_cons]] at hmem
        rw [cleanup_no_destroy hnone] at hmem
        simp at hmem
    · rw [attemptSidsOf_append]
      intro h0
      exact dialGo_sids_nonempty (parseAddressL (jsSubL m 8 (jsIndexOfFromL m '|' 8))).1
        (parseAddressL (jsSubL m 8 (jsIndexOfFromL m '|' 8))).2
        (jsSubFromL m (jsIndexOfFromL m '|' 8 + 1)) env none (fbs.map some) 0 s
        (List.append_eq_nil.mp h0).1
  · simp only [hres]
    constructor
    · intro hmem
      have := dialGo_destroys_fresh (parseAddressL (jsSubL m 8 (jsIndexOfFromL m '|' 8))).1
        (parseAddressL (jsSubL m 8 (jsIndexOfFromL m '|' 8))).2
        (jsSubFromL m (jsIndexOfFromL m '|' 8 + 1)) env (none :: fbs.map some) 0 s sid hmem
      omega
    · exact dialGo_sids_nonempty (parseAddressL (jsSubL m 8 (jsIndexOfFromL m '|' 8))).1
        (parseAddressL (jsSubL m 8 (jsIndexOfFromL m '|' 8))).2
        (jsSubFromL m (jsIndexOfFromL m '|' 8 + 1)) env none (fbs.map some) 0 s

/-- Claim C4 counterexample: in a session that is already Streaming (socket 0
established by a first CONNECT), a second CONNECT is not rejected and the
session is not closed: a second dial runs (socket 1 is attempted and kept),
no error is sent, the client stream is not closed, and the superseded
socket 0 is never destroyed — refuting both the protocol-violation treatment
and the every-other-socket-destroyed invariant. -/
theorem claim4_counterexample :
    (runSession [] initSession
      [SEvent.wsMessage (Frame.text ("CONNECT:a:1|x".toList)) (fun _ => DialOutcome.ok),
       SEvent.wsMessage (Frame.text ("CONNECT:b:2|y".toList)) (fun _ => DialOutcome.ok)]).1 =
      ⟨false, some 1, [], 2⟩ ∧
    attemptSidsOf (runSession [] initSession
      [SEvent.wsMessage (Frame.text ("CONNECT:a:1|x".toList)) (fun _ => DialOutcome.ok),
       SEvent.wsMessage (Frame.text ("CONNECT:b:2|y".toList)) (fun _ => DialOutcome.ok)]).2 =
      [0, 1] ∧
    destroysOf (runSession [] initSession
      [SEvent.wsMessage (Frame.text ("CONNECT:a:1|x".toList)) (fun _ => DialOutcome.ok),
       SEvent.wsMessage (Frame.text ("CONNECT:b:2|y".toList)) (fun _ => DialOutcome.ok)]).2 =
      [] ∧
    Eff.wsClose ∉ (runSession [] initSession
      [SEvent.wsMessage (Frame.text ("CONNECT:a:1|x".toList)) (fun _ => DialOutcome.ok),
       SEvent.wsMessage (Frame.text ("CONNECT:b:2|y".toList)) (fun _ => DialOutcome.ok)]).2 ∧
    Eff.wsSend (errMark ++ "x".toList) ∉ (runSession [] initSession
      [SEvent.wsMessage (Frame.text ("CONNECT:a:1|x".toList)) (fun _ => DialOutcome.ok),
       SEvent.wsMessage (Frame.text ("CONNECT:b:2|y".toList)) (fun _ => DialOutcome.ok)]).2 := by
  decide

/-- Claim C4 amended: the code does not reject a Connect-request received
while Connecting/Streaming — processing any further CONNECT frame in an open
session with an established socket starts a new dial (at least one new
attempt occurs) and the previously kept socket is never destroyed, merely
abandoned; within a single dial invocation, however, every attempted socket
is either destroyed or the one kept. -/
theorem claim4_amended :
    (∀ s sid fbs env rest, s.isClosed = false → s.remoteSocket = some sid →
      sid < s.nextSid →
      sid ∉ destroysOf (onMessage s (Frame.text (connectPat ++ rest)) fbs env).2 ∧
      attemptSidsOf (onMessage s (Frame.text (connectPat ++ rest)) fbs env).2 ≠ []) ∧
    (∀ (host : List Char) (port : Option Int) (ff : List Char) (fbs : List (List Char))
        (env : Nat → DialOutcome) (i : Nat) (s : Session),
      ∀ sid ∈ attemptSidsOf (dialGo host port ff env (none :: fbs.map some) i s).2.1,
        sid ∈ destroysOf (dialGo host port ff env (none :: fbs.map some) i s).2.1 ∨
        (dialGo host port ff env (none :: fbs.map some) i s).1.remoteSocket = some sid) := by
  constructor
  · intro s sid fbs env rest hc _ hlt
    rw [onMessage_connect s rest fbs env hc]
    exact handleConnect_fresh s (connectPat ++ rest) fbs env sid hlt
  · intro host port ff fbs env i s
    exact dialGo_kept_or_destroyed host port ff env (none :: fbs.map some) i s

/-- Witness for claim C4 amended, at the streaming state left by a first
successful CONNECT. -/
theorem claim4_amended_witness :
    (0 ∉ destroysOf (onMessage ⟨false, some 0, [], 1⟩
        (Frame.text (connectPat ++ "b:2|y".toList)) [] (fun _ => DialOutcome.ok)).2 ∧
      attemptSidsOf (onMessage ⟨false, some 0, [], 1⟩
        (Frame.text (connectPat ++ "b:2|y".toList)) [] (fun _ => DialOutcome.ok)).2 ≠ []) ∧
    (∀ sid ∈ attemptSidsOf (dialGo ("h".toList) (some 9) [] (fun _ => DialOutcome.ok)
        (none :: ([] : List (List Char)).map some) 0 initSession).2.1,
      sid ∈ destroysOf (dialGo ("h".toList) (some 9) [] (fun _ => DialOutcome.ok)
        (none :: ([] : List (List Char)).map some) 0 initSession).2.1 ∨
      (dialGo ("h".toList) (some 9) [] (fun _ => DialOutcome.ok)
        (none :: ([] : List (List Char)).map some) 0 initSession).1.remoteSocket = some sid) :=
  ⟨claim4_amended.1 ⟨false, some 0, [], 1⟩ 0 [] (fun _ => DialOutcome.ok)
      ("b:2|y".toList) rfl rfl (by decide),
   claim4_amended.2 ("h".toList) (some 9) [] [] (fun _ => DialOutcome.ok) 0 initSession⟩


/-! ## Claims C7 and C8: data-frame handling -/

theorem hasPre_connect_data (payload : List Char) :
    hasPre connectPat (dataPat ++ payload) = false := by
  rw [show connectPat = 'C' :: "ONNECT:".toList from by decide,
    show dataPat = 'D' :: "ATA:".toList from by decide]
  simp [hasPre]

theorem jsSubFromL_dataPat (payload : List Char) :
    jsSubFromL (dataPat ++ payload) 5 = payload := by
  rw [show (5 : Int) = ((5 : Nat) : Int) from rfl,
    jsSubFromL_of_nat (by
      rw [List.length_append, show dataPat.length = 5 from by decide]
      omega),
    show (5 : Nat) = dataPat.length from by decide, List.drop_left]

/-- Claim C7 counterexample: in a streaming session (socket 0 established),
a binary frame whose bytes decode to `DATA:x` is not forwarded verbatim: the
handler checks the decoded text's prefix first, so only the suffix `x` is
written to the TCP socket, not the frame's six bytes. -/
theorem claim7_counterexample :
    runSession [] initSession
      [SEvent.wsMessage (Frame.text ("CONNECT:h:1|".toList)) (fun _ => DialOutcome.ok),
       SEvent.wsMessage (Frame.bin ("DATA:x".toList)) (fun _ => DialOutcome.ok)] =
      (⟨false, some 0, [], 1⟩,
       [Eff.connAttempt ("h".toList) (some 1) 0, Eff.wsSend connectedMsg,
        Eff.sockWrite 0 ("x".toList)]) ∧
    ("x".toList : List Char) ≠ ("DATA:x".toList) := by
  decide

/-- Claim C7 amended: with a live undestroyed socket, a binary frame is
forwarded verbatim provided its decoded text does not start with `CONNECT:`
or `DATA:` and does not equal `CLOSE` (otherwise the text command handling
intercepts it), and a `DATA:<bytes>` text frame writes exactly the bytes
after the prefix. -/
theorem claim7_amended :
    (∀ s sid fbs env bytes, s.isClosed = false → s.remoteSocket = some sid →
      s.destroyed.contains sid = false →
      hasPre connectPat bytes = false → hasPre dataPat bytes = false →
      bytes ≠ closeMsg →
      onMessage s (Frame.bin bytes) fbs env = (s, [Eff.sockWrite sid bytes])) ∧
    (∀ s sid fbs env payload, s.isClosed = false → s.remoteSocket = some sid →
      s.destroyed.contains sid = false →
      onMessage s (Frame.text (dataPat ++ payload)) fbs env =
        (s, [Eff.sockWrite sid payload])) := by
  constructor
  · intro s sid fbs env bytes hc hr hd h1 h2 h3
    unfold onMessage
    rw [if_neg (by simp [hc])]
    simp only [Frame.toMsg]
    rw [if_neg (by simp [h1]), if_neg (by simp [h2]), if_neg h3]
    simp only [Frame.isBuf, if_pos]
    simp [writeToSock, hr, hd]
    simpa using hd
  · intro s sid fbs env payload hc hr hd
    unfold onMessage
    rw [if_neg (by simp [hc])]
    simp only [Frame.toMsg]
    rw [if_neg (by simp [hasPre_connect_data payload]),
      if_pos (hasPre_append dataPat payload)]
    rw [jsSubFromL_dataPat]
    simp [writeToSock, hr, hd]
    simpa using hd

/-- Witness for claim C7 amended at a streaming state. -/
theorem claim7_amended_witness :
    onMessage ⟨false, some 0, [], 1⟩ (Frame.bin ("GET /".toList)) []
      (fun _ => DialOutcome.ok) =
      (⟨false, some 0, [], 1⟩, [Eff.sockWrite 0 ("GET /".toList)]) ∧
    onMessage ⟨false, some 0, [], 1⟩ (Frame.text (dataPat ++ "hi".toList)) []
      (fun _ => DialOutcome.ok) =
      (⟨false, some 0, [], 1⟩, [Eff.sockWrite 0 ("hi".toList)]) :=
  ⟨claim7_amended.1 ⟨false, some 0, [], 1⟩ 0 [] (fun _ => DialOutcome.ok)
      ("GET /".toList) rfl rfl rfl (by decide) (by decide) (by decide),
   claim7_amended.2 ⟨false, some 0, [], 1⟩ 0 [] (fun _ => DialOutcome.ok)
      ("hi".toList) rfl rfl rfl⟩

/-- Claim C8 counterexample: in an open session with no TCP socket — the
configuration the session is in while a connect attempt is still resolving
its candidate (and before any dial) — a `DATA:x` text frame and a binary
frame with those same bytes each produce no effect at all and leave the
state unchanged: nothing is written, nothing is queued (the program has no
buffer), nothing is rejected.  The data is silently dropped, contradicting
the queued-or-rejected claim. -/
theorem claim8_counterexample :
    onMessage ⟨false, none, [], 0⟩ (Frame.text ("DATA:x".toList)) []
      (fun _ => DialOutcome.ok) = (⟨false, none, [], 0⟩, []) ∧
    onMessage ⟨false, none, [], 0⟩ (Frame.bin ("DATA:x".toList)) []
      (fun _ => DialOutcome.ok) = (⟨false, none, [], 0⟩, []) := by
  decide

/-- Claim C8 amended: a `DATA:` text frame, and likewise any binary frame
that does not decode to a `CONNECT:` or `CLOSE` command, arriving in an open
session whose `remoteSocket` is null is silently discarded — the handler's
only guard is "socket exists and not destroyed", and no queue exists in the
program. -/
theorem claim8_amended :
    (∀ (s : Session) (fbs : List (List Char)) (env : Nat → DialOutcome)
        (payload : List Char), s.isClosed = false → s.remoteSocket = none →
      onMessage s (Frame.text (dataPat ++ payload)) fbs env = (s, [])) ∧
    (∀ (s : Session) (fbs : List (List Char)) (env : Nat → DialOutcome)
        (bytes : List Char), s.isClosed = false → s.remoteSocket = none →
      hasPre connectPat bytes = false → bytes ≠ closeMsg →
      onMessage s (Frame.bin bytes) fbs env = (s, [])) := by
  constructor
  · intro s fbs env payload hc hr
    unfold onMessage
    rw [if_neg (by simp [hc])]
    simp only [Frame.toMsg]
    rw [if_neg (by simp [hasPre_connect_data payload]),
      if_pos (hasPre_append dataPat payload)]
    simp [writeToSock, hr]
  · intro s fbs env bytes hc hr h1 h2
    unfold onMessage
    rw [if_neg (by simp [hc])]
    simp only [Frame.toMsg]
    rw [if_neg (by simp [h1])]
    by_cases hd : hasPre dataPat bytes
    · rw [if_pos hd]
      simp [writeToSock, hr]
    · rw [if_neg hd, if_neg h2]
      simp only [Frame.isBuf, if_pos]
      simp [writeToSock, hr]

/-- Witness for claim C8 amended: a text `DATA:` frame, a binary frame
decoding to `DATA:zz`, and a raw binary frame are all dropped at a null
socket. -/
theorem claim8_amended_witness :
    onMessage ⟨false, none, [], 3⟩ (Frame.text (dataPat ++ "zz".toList)) []
      (fun _ => DialOutcome.ok) = (⟨false, none, [], 3⟩, []) ∧
    onMessage ⟨false, none, [], 3⟩ (Frame.bin ("DATA:zz".toList)) []
      (fun _ => DialOutcome.ok) = (⟨false, none, [], 3⟩, []) ∧
    onMessage ⟨false, none, [], 3⟩ (Frame.bin ("raw bytes".toList)) []
      (fun _ => DialOutcome.ok) = (⟨false, none, [], 3⟩, []) :=
  ⟨claim8_amended.1 ⟨false, none, [], 3⟩ [] (fun _ => DialOutcome.ok) ("zz".toList) rfl rfl,
   claim8_amended.2 ⟨false, none, [], 3⟩ [] (fun _ => DialOutcome.ok) ("DATA:zz".toList)
     rfl rfl (by decide) (by decide),
   claim8_amended.2 ⟨false, none, [], 3⟩ [] (fun _ => DialOutcome.ok) ("raw bytes".toList)
     rfl rfl (by decide) (by decide)⟩


end WsProxy
